import Mathlib

/-!
Shallow embedding of the PSF container decoder (`PSFFile.cpp`) and the VAB
instrument-bank decoder (`formats/Vab.cpp`).

Bytes are modelled as `Nat` (values 0..255), byte buffers as `List Nat`,
and the random-access byte source of the bank decoder as a function
`Nat → Nat`.  32-bit machine arithmetic is modelled as `Nat` arithmetic
with an explicit `% 4294967296` wherever the C++ computation is performed
in `uint32_t` and can wrap.
-/

/-- Error kinds of `PSFFile`.  The C++ code reports errors through the
`errorstr` message; each distinct message site gets one constructor.
`PSFFile::Decompress` uses the same "Decompression failed" message for the
size-0 mismatch and for a failing primitive call, hence one constructor. -/
inductive PSFError
  | tooSmall
  | badSignature
  | inconsistentHeader
  | corruptPayload
  | decompressFailed
  deriving DecidableEq, Repr

/-- State of a `PSFFile` object: the fields mutated by `Load`, `Decompress`
and `Clear` (`version`, `exeCRC`, the three `DataSeg` buffers, `tags`,
`decompressed`, `errorstr`). -/
structure PSFState where
  version : Nat
  exeCRC : Nat
  exeData : List Nat
  exeCompData : List Nat
  reservedData : List Nat
  tags : List (List Nat × List Nat)
  decompressed : Bool
  error : Option PSFError
  deriving DecidableEq, Repr

/-- State after `PSFFile::Clear` (all buffers empty, no error). -/
def psfCleared : PSFState :=
  ⟨0, 0, [], [], [], [], false, none⟩

/-- Little-endian 32-bit read at `off` (`RawFile::GetWord`); bytes past the
end of the buffer read as 0. -/
def word32 (b : List Nat) (off : Nat) : Nat :=
  b.getD off 0 + 256 * b.getD (off + 1) 0 + 65536 * b.getD (off + 2) 0 +
    16777216 * b.getD (off + 3) 0

/-- Contiguous byte range `[off, off + len)` of a buffer (`RawFile::GetBytes`
into a fresh buffer); ranges past the end are truncated. -/
def listSlice (b : List Nat) (off len : Nat) : List Nat :=
  (b.drop off).take len

/-- Modelled from the spec: one shift-and-conditional-xor step of the
reflected CRC-32 polynomial 0xEDB88320.  The CRC primitive itself (zlib
`crc32`) is external to the repository; the spec fixes it to the standard
CRC-32 over a byte range. -/
def crc32Step (x : Nat) : Nat :=
  if x % 2 = 1 then (x / 2) ^^^ 0xEDB88320 else x / 2

/-- Modelled from the spec: fold one byte into the CRC-32 accumulator. -/
def crc32Byte (c b : Nat) : Nat :=
  crc32Step^[8] (c ^^^ b % 256)

/-- Modelled from the spec: standard CRC-32 of a byte sequence, started from
the empty-extent accumulator (`crc32(0L, Z_NULL, 0)` = 0, so the working
accumulator starts at 0 xor 0xFFFFFFFF and is finally xored again). -/
def crc32 (data : List Nat) : Nat :=
  (data.foldl crc32Byte 0xFFFFFFFF) ^^^ 0xFFFFFFFF

/-- Header consistency check of `PSFFile::Load` (lines 67-69).  All three
operands are `uint32_t`/`UINT`; the sum `16 + reservedSize + exeSize` is
computed in 32-bit arithmetic and therefore wraps modulo 2^32. -/
def psfConsistencyFail (fileSize reservedSize exeSize : Nat) : Bool :=
  decide (reservedSize > fileSize) || decide (exeSize > fileSize) ||
    decide ((16 + reservedSize + exeSize) % 4294967296 > fileSize)

/-- Trim of bytes ≤ 0x20 from both ends of a byte string (the four trim
loops of `PSFFile::Load`; trimming the end first and then the start gives
the same result as this left-then-right formulation). -/
def trimBytes (l : List Nat) : List Nat :=
  ((l.dropWhile (fun c => c ≤ 32)).reverse.dropWhile (fun c => c ≤ 32)).reverse

/-- C `strchr` over a byte region: index of the first occurrence of
`target`, scanning left to right and stopping at the first NUL byte
(the tag section is handled as a NUL-terminated C string). -/
def scanTo (target : Nat) : List Nat → Option Nat
  | [] => none
  | c :: rest =>
    if c = target then some 0
    else if c = 0 then none
    else (scanTo target rest).map (· + 1)

/-- Strict lexicographic byte-string order (`std::string::operator<`),
the key order of the `std::map<string, string> tags`. -/
def byteLt : List Nat → List Nat → Bool
  | [], [] => false
  | [], _ :: _ => true
  | _ :: _, [] => false
  | a :: as, b :: bs =>
    if a < b then true else if b < a then false else byteLt as bs

/-- Insert-or-append into the key-ordered tag map (lines 186-195 of
`PSFFile.cpp`): `lower_bound`, then append `"\n" + value` to an existing
entry with the exact same key, otherwise insert a new entry in order. -/
def tagsUpdate : List (List Nat × List Nat) → List Nat → List Nat →
    List (List Nat × List Nat)
  | [], k, v => [(k, v)]
  | (k', v') :: rest, k, v =>
    if byteLt k k' then (k, v) :: (k', v') :: rest
    else if k = k' then (k', v' ++ [10] ++ v) :: rest
    else (k', v') :: tagsUpdate rest k v

/-- Lookup in the tag map by exact key equality. -/
def tagsGet : List (List Nat × List Nat) → List Nat → Option (List Nat)
  | [], _ => none
  | (k', v') :: rest, k => if k' = k then some v' else tagsGet rest k

/-- Tag-section parsing loop of `PSFFile::Load` (lines 132-198) over the tag
section `t` (the bytes from `tagSectionOffset` to end of file).  `pos` is
`tagCurPos`; the fuel argument only bounds the recursion (each iteration
advances `pos` by at least one, so `t.length + 1` fuel is never exhausted).
A line runs to the first 0x0A found before any NUL byte, otherwise to the
end of the section; lines without a `=` before the line end (or before an
embedded NUL) are skipped; name and value are trimmed and merged into the
key-ordered map. -/
def psfTagLoop (t : List Nat) : Nat → Nat → List (List Nat × List Nat) →
    List (List Nat × List Nat)
  | 0, _, m => m
  | fuel + 1, pos, m =>
    if pos < t.length then
      let lineEnd := ((scanTo 10 (t.drop pos)).map (· + pos)).getD t.length
      let m' :=
        match scanTo 61 ((t.drop pos).take (lineEnd - pos)) with
        | none => m
        | some rel =>
          let name := trimBytes ((t.drop pos).take rel)
          let v := trimBytes ((t.drop (pos + rel + 1)).take (lineEnd - (pos + rel + 1)))
          tagsUpdate m name v
      psfTagLoop t fuel (lineEnd + 1) m'
    else m

/-- Entry point of the tag-parsing loop: `tagCurPos` starts at
`PSF_TAG_SIG_LEN` = 5 and the map starts empty. -/
def psfParseTags (t : List Nat) : List (List Nat × List Nat) :=
  psfTagLoop t (t.length + 1) 5 []

/-- Shallow embedding of `PSFFile::Load` (lines 37-202).  The input buffer
is the whole file; the result is the object state after the call.  Notes on
fidelity: the two `new`-returns-NULL checks are dead code in C++ (`new`
throws) and are omitted; the `hasTagSection` flag computed at lines 104-116
is never used by the C++ code, so the tag-parsing loop runs on the trailing
region whether or not it starts with the "[TAG]" marker; offsets that the
C++ computes in `uint32_t` carry an explicit `% 4294967296`. -/
def psfLoad (b : List Nat) : PSFState :=
  if b.length < 16 then
    { psfCleared with error := some PSFError.tooSmall }
  else if ¬ (b.take 3 = [80, 83, 70]) then
    { psfCleared with error := some PSFError.badSignature }
  else
    let version := b.getD 3 0
    let reservedSize := word32 b 4
    let exeSize := word32 b 8
    let exeCRC := word32 b 12
    if psfConsistencyFail b.length reservedSize exeSize then
      { psfCleared with version := version, exeCRC := exeCRC, error := some PSFError.inconsistentHeader }
    else
      let zexebuf := listSlice b ((16 + reservedSize) % 4294967296) exeSize
      if ¬ (exeCRC = crc32 zexebuf) then
        { psfCleared with version := version, exeCRC := exeCRC, exeCompData := [], error := some PSFError.corruptPayload }
      else
        let reservebuf := listSlice b 16 reservedSize
        let tagSectionOffset := (16 + reservedSize + exeSize) % 4294967296
        let tagSectionSize := b.length - tagSectionOffset
        let tagSect := listSlice b tagSectionOffset tagSectionSize
        { psfCleared with version := version, exeCRC := exeCRC, exeCompData := zexebuf, reservedData := reservebuf, tags := psfParseTags tagSect, error := none }

/-- Modelled from the spec: status of the external DEFLATE decompression
primitive (zlib `uncompress`), distinguishing Ok, destination buffer too
small, data error, and anything else. -/
inductive UncompressStatus
  | ok
  | destTooSmall
  | dataError
  | other
  deriving DecidableEq, Repr

/-- Shallow embedding of `PSFFile::ReadExe` (lines 204-213): a `const`
method that runs the primitive into a caller-supplied buffer and returns
`false` exactly on the `Z_DATA_ERROR` status.  `status` is the status the
external primitive returns for `s.exeCompData`; the state is only read,
never returned. -/
def psfReadExe (s : PSFState) (status : UncompressStatus) : Bool :=
  match s, status with
  | _, UncompressStatus.dataError => false
  | _, _ => true

/-- Shallow embedding of `PSFFile::Decompress` (lines 215-250).  `status`
and `outBytes` are the status and output of the external primitive when it
is invoked (size ≠ 0 path); the result is the new state and the returned
`bool`. -/
def psfDecompress (s : PSFState) (decompressedSize : Nat)
    (status : UncompressStatus) (outBytes : List Nat) : PSFState × Bool :=
  if decompressedSize = 0 then
    let s' := { s with exeData := [] }
    if s.exeCompData.length = 0 then (s', true)
    else ({ s' with error := some PSFError.decompressFailed }, false)
  else
    match status with
    | UncompressStatus.ok =>
      ({ s with exeData := outBytes, decompressed := true }, true)
    | _ => ({ s with error := some PSFError.decompressFailed }, false)

/-- Byte read from the bank decoder's random-access source
(`RawFile::GetByte`); the offset argument is a `uint32_t`, so the source is
consulted at the offset reduced modulo 2^32. -/
def getByte (gb : Nat → Nat) (off : Nat) : Nat :=
  gb (off % 4294967296)

/-- Little-endian 16-bit read (`RawFile::GetShort`). -/
def getShort (gb : Nat → Nat) (off : Nat) : Nat :=
  getByte gb off + 256 * getByte gb (off + 1)

/-- One instrument entry recorded by `Vab::GetInstrPointers`: the slot
index, the tone-attribute offset handed to the `VabInstr` constructor, the
tone count and the master-volume byte.  The raw 16-byte attribute block is
read from the same program-table entry (`GetBytes(offCurrProg, 0x10, ...)`)
and is not duplicated here; its `tones` byte is the `tones` field. -/
structure VabProg where
  slot : Nat
  toneAttrOff : Nat
  tones : Nat
  masterVol : Nat
  deriving DecidableEq, Repr

/-- Program-slot scan loop of `Vab::GetInstrPointers` (lines 92-130).
`rem` counts the remaining slots of the fixed 128-iteration loop, `i` is
the slot index and `acc` is `aInstrs` (empty at entry).  The tone-attribute
offset uses `acc.length` (the number of programs accepted so far), not `i`;
a slot with more than 32 tones is skipped with a warning, a slot with zero
tones is skipped silently, and the loop breaks as soon as the tone-attribute
offset plus 32*16 exceeds `nEndOffset`. -/
def vabScanGo (gb : Nat → Nat) (dwOffset nEndOffset : Nat) :
    Nat → Nat → List VabProg → List VabProg
  | 0, _, acc => acc
  | rem + 1, i, acc =>
    let offCurrToneAttrs := (dwOffset + 32 + 2048 + acc.length * 512) % 4294967296
    if (offCurrToneAttrs + 512) % 4294967296 > nEndOffset then acc
    else
      let numTones := getByte gb (dwOffset + 32 + i * 16)
      if numTones > 32 then vabScanGo gb dwOffset nEndOffset rem (i + 1) acc
      else if numTones ≠ 0 then
        vabScanGo gb dwOffset nEndOffset rem (i + 1)
          (acc ++ [⟨i, offCurrToneAttrs, numTones, getByte gb (dwOffset + 32 + i * 16 + 1)⟩])
      else vabScanGo gb dwOffset nEndOffset rem (i + 1) acc

/-- Entry point of the program-slot scan: all 128 slots, starting from an
empty `aInstrs`. -/
def vabScan (gb : Nat → Nat) (dwOffset nEndOffset : Nat) : List VabProg :=
  vabScanGo gb dwOffset nEndOffset 128 0 []

/-- Tone count stored in the program-table entry of slot `i`
(`GetByte(offProgs + i * 16)`). -/
def vabSlotTones (gb : Nat → Nat) (dwOffset i : Nat) : Nat :=
  getByte gb (dwOffset + 32 + i * 16)

/-- Acceptance of slot `i`: a program is recorded when its tone count is
neither greater than 32 (skip with warning) nor zero (silent skip). -/
def vabAccept (gb : Nat → Nat) (dwOffset i : Nat) : Bool :=
  decide (vabSlotTones gb dwOffset i ≤ 32) && decide (vabSlotTones gb dwOffset i ≠ 0)

/-- Number of accepted program slots with index below `i`. -/
def vabCountAccepted (gb : Nat → Nat) (dwOffset i : Nat) : Nat :=
  ((List.range i).filter (vabAccept gb dwOffset)).length

/-- Tone-attribute offset used for slot `i`: the table base plus 32*16
bytes for every program accepted before slot `i`. -/
def vabToneAttrOff (gb : Nat → Nat) (dwOffset i : Nat) : Nat :=
  (dwOffset + 32 + 2048 + vabCountAccepted gb dwOffset i * 512) % 4294967296

/-- Early-termination test of the scan at slot `i`. -/
def vabBreakAt (gb : Nat → Nat) (dwOffset nEndOffset i : Nat) : Bool :=
  decide ((vabToneAttrOff gb dwOffset i + 512) % 4294967296 > nEndOffset)

/-- Slot `i` is examined by the scan: no slot up to and including `i`
triggered the early break. -/
def vabExamined (gb : Nat → Nat) (dwOffset nEndOffset i : Nat) : Bool :=
  (List.range (i + 1)).all (fun j => ! vabBreakAt gb dwOffset nEndOffset j)

/-- Instrument entry produced for an accepted slot `i`. -/
def vabProgAt (gb : Nat → Nat) (dwOffset i : Nat) : VabProg :=
  ⟨i, vabToneAttrOff gb dwOffset i, vabSlotTones gb dwOffset i,
    getByte gb (dwOffset + 32 + i * 16 + 1)⟩

/-- Accepted sample locations and the running total size of the VAG
reconstruction loop: `vagLocations` and `totalVAGSize`. -/
structure VagState where
  locs : List (Nat × Nat)
  total : Nat
  deriving DecidableEq, Repr

/-- Sample size computed for loop index `i`:
`GetShort(offVAGOffsets + (i + 1) * 2) * 8`, with the 16-bit table read
abstracted as `table`. -/
def vagSize (table : Nat → Nat) (i : Nat) : Nat :=
  table (i + 1) * 8

/-- Sample offset computed for loop index `i` (lines 148-157): `vagStartOffset`
for `i = 0`, otherwise `vagStartOffset + vagLocations[i-1].offset +
vagLocations[i-1].size`.  `vagLocations` holds only the entries accepted so
far, so the `i - 1` subscript is an out-of-bounds vector access whenever an
earlier entry was rejected; the total embedding returns `none` there. -/
def vagOffsetCalc (start : Nat) (locs : List (Nat × Nat)) (i : Nat) : Option Nat :=
  if i = 0 then some start
  else
    match locs.get? (i - 1) with
    | some p => some ((start + p.1 + p.2) % 4294967296)
    | none => none

/-- One iteration of the VAG reconstruction loop (lines 143-173): compute
offset and size, then either record the pair and add its size to the total
(`vagOffset + vagSize <= nEndOffset`) or reject it with a warning. -/
def vagStep (table : Nat → Nat) (nEndOffset start i : Nat) (s : VagState) :
    Option VagState :=
  match vagOffsetCalc start s.locs i with
  | none => none
  | some off =>
    if (off + vagSize table i) % 4294967296 ≤ nEndOffset then
      some ⟨s.locs ++ [(off, vagSize table i)], s.total + vagSize table i⟩
    else some s

/-- First `n` iterations of the VAG reconstruction loop, starting from the
empty location list and `totalVAGSize = vagStartOffset` (line 141). -/
def vagLoop (table : Nat → Nat) (nEndOffset start : Nat) : Nat → Option VagState
  | 0 => some ⟨[], start⟩
  | n + 1 => (vagLoop table nEndOffset start n).bind (vagStep table nEndOffset start n)

/-- Whole VAG sample-location reconstruction: `numVAGs` iterations with
`vagStartOffset = table 0 * 8`. -/
def vagReconstruct (table : Nat → Nat) (numVAGs nEndOffset : Nat) : Option VagState :=
  vagLoop table nEndOffset (table 0 * 8) numVAGs

/-- Offset/size pair computed at loop index `i` (given that the loop
reaches iteration `i` and the offset computation is in bounds). -/
def vagEntry (table : Nat → Nat) (nEndOffset start i : Nat) : Option (Nat × Nat) :=
  (vagLoop table nEndOffset start i).bind fun s =>
    (vagOffsetCalc start s.locs i).map fun off => (off, vagSize table i)

/-- Modelled from the spec: the sample-location reconstruction as the spec
words it, chaining every offset from the literal previous entry's computed
offset and size whether or not that entry was rejected.  The state carries
the accepted list, the running total and the previous entry's offset and
size. -/
def vagSpecLoop (table : Nat → Nat) (nEndOffset start : Nat) :
    Nat → List (Nat × Nat) × Nat × Nat × Nat
  | 0 => ([], start, 0, 0)
  | n + 1 =>
    let st := vagSpecLoop table nEndOffset start n
    let off := if n = 0 then start else start + st.2.2.1 + st.2.2.2
    let sz := table (n + 1) * 8
    if off + sz ≤ nEndOffset then
      (st.1 ++ [(off, sz)], st.2.1 + sz, off, sz)
    else (st.1, st.2.1, off, sz)

/-- Modelled from the spec: accepted locations and total size of the
literal-chaining reconstruction. -/
def vagReconstructSpec (table : Nat → Nat) (numVAGs nEndOffset : Nat) :
    List (Nat × Nat) × Nat :=
  let st := vagSpecLoop table nEndOffset (table 0 * 8) numVAGs
  (st.1, st.2.1)

/-- Region record decoded by `VabRgn::LoadRgn` (lines 249-312) from the
0x20-byte block at `off`.  The floating-point volume is determined by
`volNum` and the owning instrument's master volume and is not duplicated
here; `fineTune` is `(int16_t)(ft * 100.0 / 128.0)` with `ft` the signed
reading of byte 5 - the quotient is exact in binary floating point (the
divisor is a power of two), so the cast is truncation toward zero of
`ft * 100 / 128`. -/
structure VabRgnRec where
  priority : Nat
  mode : Nat
  volNum : Nat
  pan : Nat
  unityKey : Nat
  pitchTuneByte : Nat
  keyLow : Nat
  keyHigh : Nat
  adsr1 : Nat
  adsr2 : Nat
  sampNum : Nat
  fineTune : Int
  deriving DecidableEq, Repr

/-- Shallow embedding of `VabRgn::LoadRgn`.  All fields are decoded, the
stored 1-based sample index is decremented with a clamp of negative values
to 0 (`Nat` truncated subtraction models exactly that), and the sole
failure is an inverted key range: `keyLow > keyHigh` returns `false` in
C++, `none` here. -/
def vabRgnLoad (gb : Nat → Nat) (off masterVol : Nat) : Option VabRgnRec :=
  let keyLow := getByte gb (off + 6)
  let keyHigh := getByte gb (off + 7)
  let ft : Int :=
    if getByte gb (off + 5) < 128 then (getByte gb (off + 5) : Int)
    else (getByte gb (off + 5) : Int) - 256
  if keyLow > keyHigh then none
  else
    some ⟨getByte gb off, getByte gb (off + 1), getByte gb (off + 2),
      getByte gb (off + 3), getByte gb (off + 4), getByte gb (off + 5),
      keyLow, keyHigh, getShort gb (off + 16), getShort gb (off + 18),
      getShort gb (off + 22) - 1, Int.tdiv (ft * 100) 128⟩

/-- Region-loading loop of `VabInstr::LoadInstr` (lines 218-232): one
region per tone at stride 0x20; at the first region that fails to decode
the loop stops and the method returns `false` (the regions pushed so far
stay in `aRgns`, which the result's second component records). -/
def vabInstrLoadGo (gb : Nat → Nat) (off masterVol : Nat) :
    Nat → Nat → List VabRgnRec → Bool × List VabRgnRec
  | 0, _, acc => (true, acc)
  | rem + 1, i, acc =>
    match vabRgnLoad gb ((off + i * 32) % 4294967296) masterVol with
    | none => (false, acc)
    | some r => vabInstrLoadGo gb off masterVol rem (i + 1) (acc ++ [r])

/-- Shallow embedding of `VabInstr::LoadInstr`: `numRgns` is `attr.tones`
read through an `int8_t`, so a tone byte of 128 or more is negative and
the loop runs zero times. -/
def vabInstrLoad (gb : Nat → Nat) (off masterVol tones : Nat) : Bool × List VabRgnRec :=
  vabInstrLoadGo gb off masterVol (if tones < 128 then tones else 0) 0 []

/-- Modelled from the spec: the framework caller of `LoadInstr` (outside
src/) discards the whole program entry when `LoadInstr` reports failure, so
no partially decoded region list is retained for that program. -/
def vabInstrLoadResult (gb : Nat → Nat) (off masterVol tones : Nat) :
    Option (List VabRgnRec) :=
  match vabInstrLoad gb off masterVol tones with
  | (true, rs) => some rs
  | (false, _) => none

/-- Shallow embedding of `Vab::GetInstrPointers` (lines 64-195): the two
count gates, the 128-slot program scan and, when the VAG pointer table fits
below `nEndOffset`, the sample-location reconstruction with the 16-bit
table read at `offVAGOffsets + j * 2`. -/
def vabGetInstrPointers (gb : Nat → Nat) (dwOffset nEndOffset : Nat) :
    Option (List VabProg × Option VagState) :=
  let numPrograms := getShort gb (dwOffset + 18)
  let numVAGs := getShort gb (dwOffset + 22)
  if numPrograms > 128 then none
  else if numVAGs > 255 then none
  else
    let offVAGOffsets := (dwOffset + 32 + 2048 + 512 * numPrograms) % 4294967296
    let vag :=
      if (offVAGOffsets + 512) % 4294967296 ≤ nEndOffset then
        vagReconstruct (fun j => getShort gb (offVAGOffsets + j * 2)) numVAGs nEndOffset
      else none
    some (vabScan gb dwOffset nEndOffset, vag)

/-- Key/value pairs extracted by the tag-parsing loop, in encounter order
(the same line walk as `psfTagLoop`, collecting instead of folding into the
map). -/
def psfTagEntriesLoop (t : List Nat) : Nat → Nat → List (List Nat × List Nat)
  | 0, _ => []
  | fuel + 1, pos =>
    if pos < t.length then
      let lineEnd := ((scanTo 10 (t.drop pos)).map (· + pos)).getD t.length
      match scanTo 61 ((t.drop pos).take (lineEnd - pos)) with
      | none => psfTagEntriesLoop t fuel (lineEnd + 1)
      | some rel =>
        (trimBytes ((t.drop pos).take rel),
          trimBytes ((t.drop (pos + rel + 1)).take (lineEnd - (pos + rel + 1)))) ::
          psfTagEntriesLoop t fuel (lineEnd + 1)
    else []

/-- Key/value pairs of the whole tag section, in encounter order. -/
def psfTagEntries (t : List Nat) : List (List Nat × List Nat) :=
  psfTagEntriesLoop t (t.length + 1) 5

/-- Values carried by the entries with exactly the key `k`, in encounter
order. -/
def tagValuesFor (k : List Nat) (es : List (List Nat × List Nat)) : List (List Nat) :=
  es.filterMap fun e => if e.1 = k then some e.2 else none

/-- Merge of a value sequence the way repeated `tagsUpdate` calls merge
them: the first value starts the entry, every later one is appended after a
0x0A separator. -/
def mergeTagVals : Option (List Nat) → List (List Nat) → Option (List Nat)
  | acc, [] => acc
  | none, v :: vs => mergeTagVals (some v) vs
  | some w, v :: vs => mergeTagVals (some (w ++ [10] ++ v)) vs

/-- Keys of the tag map are strictly increasing in `byteLt` (the `std::map`
representation invariant). -/
def TagMapSorted (m : List (List Nat × List Nat)) : Prop :=
  m.Pairwise fun a b => byteLt a.1 b.1 = true

/-- C10: for every decoder state, `Decompress` with expected size 0 clears
the decompressed-payload buffer and returns `true` iff the compressed
payload is empty, setting the decompression-failure error otherwise; the
decompressed buffer ends empty in both outcomes. -/
theorem psfDecompress_zero (s : PSFState) (st : UncompressStatus) (d : List Nat) :
    (psfDecompress s 0 st d).1.exeData = [] ∧
    ((psfDecompress s 0 st d).2 = true ↔ s.exeCompData = []) ∧
    (psfDecompress s 0 st d).1.error =
      (if s.exeCompData = [] then s.error else some PSFError.decompressFailed) := by
  by_cases h : s.exeCompData = [] <;>
    simp [psfDecompress, h, List.length_eq_zero]

/-- C5 (amended): `ReadExe` reports failure exactly when the external
decompression primitive returns the data-error status; every other status,
including destination-buffer-too-small, is treated as success, and the
state is only read. -/
theorem psfReadExe_fails_iff_dataError (s : PSFState) (st : UncompressStatus) :
    psfReadExe s st = false ↔ st = UncompressStatus.dataError := by
  cases st <;> simp [psfReadExe]

/-- C5 (counterexample): contrary to the claim, `ReadExe` fails on the
data-error status and succeeds on the destination-buffer-too-small
status. -/
theorem psfReadExe_dataError_counterexample :
    psfReadExe psfCleared UncompressStatus.dataError = false ∧
    psfReadExe psfCleared UncompressStatus.destTooSmall = true :=
  ⟨rfl, rfl⟩

/-- C4: a header with `totalSize = 2^32 - 1` and
`reservedSize = payloadSize = 2^31` passes the consistency gate of
`PSFFile::Load` even though the exact sum `16 + reservedSize + payloadSize`
exceeds `totalSize`: the 32-bit sum wraps to 16. -/
theorem psfConsistency_wrap_passes :
    psfConsistencyFail 4294967295 2147483648 2147483648 = false ∧
    16 + 2147483648 + 2147483648 > 4294967295 :=
  ⟨by decide, by decide⟩

/-- C1: a container whose trailing region does not start with the "[TAG]"
marker (here it starts with "ZZZZZ") still gets its tag mapping populated
by `PSFFile::Load` - the `hasTagSection` flag is computed and never used,
so the line `t=v` after the first five trailing bytes is parsed into the
map. -/
theorem psfLoad_tags_without_marker :
    (psfLoad [80,83,70,1, 0,0,0,0, 0,0,0,0, 0,0,0,0, 90,90,90,90,90, 116,61,118,10]).tags
      = [([116], [118])] ∧
    (psfLoad [80,83,70,1, 0,0,0,0, 0,0,0,0, 0,0,0,0, 90,90,90,90,90, 116,61,118,10]).error = none ∧
    listSlice [80,83,70,1, 0,0,0,0, 0,0,0,0, 0,0,0,0, 90,90,90,90,90, 116,61,118,10] 16 5
      = [90,90,90,90,90] ∧
    [(90:Nat),90,90,90,90] ≠ [91,84,65,71,93] :=
  ⟨by decide, by decide, by decide, by decide⟩

/-- C7: for every source buffer that passes the size, signature and
header-consistency gates, a stored checksum different from the CRC-32 of
the extracted compressed payload makes `Load` fail with the corrupt-payload
error, with the compressed-payload buffer cleared and neither reserved data
nor tags populated. -/
theorem psfLoad_crc_mismatch (b : List Nat)
    (hsize : ¬ b.length < 16) (hsig : b.take 3 = [80, 83, 70])
    (hhdr : psfConsistencyFail b.length (word32 b 4) (word32 b 8) = false)
    (hcrc : word32 b 12 ≠ crc32 (listSlice b ((16 + word32 b 4) % 4294967296) (word32 b 8))) :
    (psfLoad b).error = some PSFError.corruptPayload ∧
    (psfLoad b).exeCompData = [] ∧ (psfLoad b).reservedData = [] ∧
    (psfLoad b).tags = [] := by
  have h : psfLoad b = ⟨b.getD 3 0, word32 b 12, [], [], [], [], false, some PSFError.corruptPayload⟩ := by
    simp [psfLoad, psfCleared, hsize, hsig, hhdr, hcrc]
  rw [h]
  exact ⟨rfl, rfl, rfl, rfl⟩

/-- C7 witness: a 16-byte container with empty payload and stored checksum
1 (CRC-32 of the empty payload is 0) fails with the corrupt-payload error
and empty buffers. -/
theorem psfLoad_crc_mismatch_witness :
    (psfLoad [80,83,70,1, 0,0,0,0, 0,0,0,0, 1,0,0,0]).error = some PSFError.corruptPayload ∧
    (psfLoad [80,83,70,1, 0,0,0,0, 0,0,0,0, 1,0,0,0]).exeCompData = [] ∧
    (psfLoad [80,83,70,1, 0,0,0,0, 0,0,0,0, 1,0,0,0]).reservedData = [] ∧
    (psfLoad [80,83,70,1, 0,0,0,0, 0,0,0,0, 1,0,0,0]).tags = [] :=
  psfLoad_crc_mismatch _ (by decide) (by decide) (by decide) (by decide)

lemma vagStep_calc_none (table : Nat → Nat) (e st n : Nat) (s0 : VagState)
    (hc : vagOffsetCalc st s0.locs n = none) :
    vagStep table e st n s0 = none := by
  unfold vagStep
  rw [hc]

lemma vagStep_calc_some (table : Nat → Nat) (e st n : Nat) (s0 : VagState) (off : Nat)
    (hc : vagOffsetCalc st s0.locs n = some off) :
    vagStep table e st n s0 =
      if (off + vagSize table n) % 4294967296 ≤ e then
        some ⟨s0.locs ++ [(off, vagSize table n)], s0.total + vagSize table n⟩
      else some s0 := by
  unfold vagStep
  rw [hc]

lemma vagLoop_length_le (table : Nat → Nat) (e st : Nat) :
    ∀ n s, vagLoop table e st n = some s → s.locs.length ≤ n := by
  intro n
  induction n with
  | zero =>
    intro s h
    simp [vagLoop] at h
    simp [← h]
  | succ n ih =>
    intro s h
    rw [vagLoop] at h
    cases hn : vagLoop table e st n with
    | none => rw [hn] at h; simp at h
    | some s0 =>
      rw [hn] at h
      simp only [Option.some_bind] at h
      have h0 := ih s0 hn
      cases hc : vagOffsetCalc st s0.locs n with
      | none => rw [vagStep_calc_none table e st n s0 hc] at h; simp at h
      | some off =>
        rw [vagStep_calc_some table e st n s0 off hc] at h
        split at h
        · cases h
          simp
          omega
        · cases h
          omega

lemma vagLoop_succ_accepted (table : Nat → Nat) (e st n : Nat) (s' : VagState)
    (h : vagLoop table e st (n + 1) = some s') (hlen : s'.locs.length = n + 1) :
    ∃ s0 off, vagLoop table e st n = some s0 ∧ s0.locs.length = n ∧
      vagOffsetCalc st s0.locs n = some off ∧
      (off + vagSize table n) % 4294967296 ≤ e ∧
      s' = ⟨s0.locs ++ [(off, vagSize table n)], s0.total + vagSize table n⟩ := by
  rw [vagLoop] at h
  cases hn : vagLoop table e st n with
  | none => rw [hn] at h; simp at h
  | some s0 =>
    rw [hn] at h
    simp only [Option.some_bind] at h
    have h0 := vagLoop_length_le table e st n s0 hn
    cases hc : vagOffsetCalc st s0.locs n with
    | none =>
      rw [vagStep_calc_none table e st n s0 hc] at h
      simp at h
    | some off =>
      rw [vagStep_calc_some table e st n s0 off hc] at h
      split at h
      · next hacc =>
        cases h
        refine ⟨s0, off, rfl, ?_, hc, hacc, rfl⟩
        have : s0.locs.length + 1 = n + 1 := by simpa using hlen
        omega
      · next hrej =>
        cases h
        omega

lemma vagLoop_pair_bound (table : Nat → Nat) (e st : Nat)
    (h16 : ∀ j, table j < 65536) (hst : st < 524288) :
    ∀ n s, vagLoop table e st n = some s →
      ∀ p ∈ s.locs, p.1 + p.2 ≤ n * 1048576 := by
  intro n
  induction n with
  | zero =>
    intro s h p hp
    simp [vagLoop] at h
    rw [← h] at hp
    simp at hp
  | succ n ih =>
    intro s h p hp
    rw [vagLoop] at h
    cases hn : vagLoop table e st n with
    | none => rw [hn] at h; simp at h
    | some s0 =>
      rw [hn] at h
      simp only [Option.some_bind] at h
      cases hc : vagOffsetCalc st s0.locs n with
      | none => rw [vagStep_calc_none table e st n s0 hc] at h; simp at h
      | some off =>
        have hsz : vagSize table n ≤ 524288 := by
          have := h16 (n + 1)
          unfold vagSize
          omega
        have hoff : off ≤ st + n * 1048576 := by
          unfold vagOffsetCalc at hc
          by_cases hn0 : n = 0
          · simp [hn0] at hc
            omega
          · rw [if_neg hn0] at hc
            cases hq : s0.locs.get? (n - 1) with
            | none => rw [hq] at hc; simp at hc
            | some q =>
              rw [hq] at hc
              simp only [Option.some_inj] at hc
              have hqmem : q ∈ s0.locs := List.get?_mem hq
              have hqb := ih s0 hn q hqmem
              have : (st + q.1 + q.2) % 4294967296 ≤ st + q.1 + q.2 := Nat.mod_le _ _
              omega
        rw [vagStep_calc_some table e st n s0 off hc] at h
        split at h
        · cases h
          simp only [List.mem_append, List.mem_singleton] at hp
          rcases hp with hp | hp
          · have := ih s0 hn p hp
            omega
          · rw [hp]
            simp only []
            omega
        · cases h
          have := ih _ hn p hp
          omega

/-- C3: whenever the VAG reconstruction loop reaches iteration `i` with
fewer accepted locations than `i` (at least one earlier entry was
rejected), the `vagLocations[i-1]` access is out of bounds - the total
embedding's lookup returns `none` and the reconstruction aborts; and such
inputs exist (second conjunct: a 2-entry table whose first entry is
rejected). -/
theorem vag_oob_access :
    (∀ (table : Nat → Nat) (e st i : Nat) (s : VagState),
        vagLoop table e st i = some s → s.locs.length < i →
        vagOffsetCalc st s.locs i = none ∧ vagLoop table e st (i + 1) = none) ∧
    vagReconstruct (fun j => if j = 1 then 1 else 0) 2 0 = none := by
  constructor
  · intro table e st i s h hlt
    have hi : ¬ i = 0 := by omega
    have hnone : s.locs.get? (i - 1) = none := List.get?_eq_none.mpr (by omega)
    have hcalc : vagOffsetCalc st s.locs i = none := by
      unfold vagOffsetCalc
      rw [if_neg hi, hnone]
    refine ⟨hcalc, ?_⟩
    rw [vagLoop, h, Option.some_bind, vagStep_calc_none table e st i s hcalc]
  · decide

/-- C3 witness: the general out-of-bounds fact applied to the concrete
table whose first entry is rejected. -/
theorem vag_oob_access_witness :
    vagLoop (fun j => if j = 1 then 1 else 0) 0 0 2 = none :=
  (vag_oob_access.1 (fun j => if j = 1 then 1 else 0) 0 0 1 ⟨[], 0⟩ (by decide) (by decide)).2

lemma vagOffsetCalc_succ (st : Nat) (locs : List (Nat × Nat)) (n : Nat) (p : Nat × Nat)
    (hq : locs.get? n = some p) :
    vagOffsetCalc st locs (n + 1) = some ((st + p.1 + p.2) % 4294967296) := by
  unfold vagOffsetCalc
  rw [if_neg (by omega), Nat.add_sub_cancel, hq]

/-- C2 (amended): in the sample-location reconstruction every computed
size is `table[i+1] * 8` and the offset of entry 0 is `startOffset =
table[0] * 8`; for `i > 0` the offset is `startOffset` plus the offset and
size of the entry at position `i-1` of the *accepted*-locations vector,
which is the literal previous entry precisely when no earlier entry was
rejected (hypothesis `hall`); table entries are 16-bit (`GetShort`) and at
most 255 iterations run, so the 32-bit offset arithmetic does not wrap. -/
theorem vag_chain_amended (table : Nat → Nat) (e i : Nat) (s : VagState)
    (h16 : ∀ j, table j < 65536) (hi : i ≤ 254)
    (h : vagLoop table e (table 0 * 8) (i + 1) = some s)
    (hall : s.locs.length = i + 1) :
    (∀ j q, vagEntry table e (table 0 * 8) j = some q → q.2 = table (j + 1) * 8) ∧
    vagEntry table e (table 0 * 8) 0 = some (table 0 * 8, table 1 * 8) ∧
    ∃ p, vagEntry table e (table 0 * 8) i = some p ∧
      vagEntry table e (table 0 * 8) (i + 1) = some (table 0 * 8 + p.1 + p.2, table (i + 2) * 8) := by
  have hst : table 0 * 8 < 524288 := by
    have := h16 0
    omega
  refine ⟨?_, ?_, ?_⟩
  · intro j q hq
    unfold vagEntry at hq
    cases hl : vagLoop table e (table 0 * 8) j with
    | none => rw [hl] at hq; simp at hq
    | some sj =>
      rw [hl] at hq
      simp only [Option.some_bind] at hq
      cases hc : vagOffsetCalc (table 0 * 8) sj.locs j with
      | none => rw [hc] at hq; simp at hq
      | some off =>
        rw [hc] at hq
        simp only [Option.map_some'] at hq
        cases hq
        rfl
  · rfl
  · obtain ⟨s0, off, hn, hlen0, hcalc, hacc, hs'⟩ :=
      vagLoop_succ_accepted table e (table 0 * 8) i s h hall
    refine ⟨(off, vagSize table i), ?_, ?_⟩
    · unfold vagEntry
      rw [hn, Option.some_bind, hcalc]
      rfl
    · have hpmem : (off, vagSize table i) ∈ s.locs := by
        rw [hs']
        simp
      have hpb := vagLoop_pair_bound table e (table 0 * 8) h16 hst (i + 1) s h _ hpmem
      have hget : s.locs.get? i = some (off, vagSize table i) := by
        rw [hs']
        show (s0.locs ++ [(off, vagSize table i)]).get? i = _
        rw [← hlen0]
        exact List.get?_concat_length s0.locs _
      have hcalc1 := vagOffsetCalc_succ (table 0 * 8) s.locs i _ hget
      have hlt : table 0 * 8 + ((off, vagSize table i).1 + (off, vagSize table i).2) < 4294967296 := by
        omega
      rw [show table 0 * 8 + (off, vagSize table i).1 + (off, vagSize table i).2 = table 0 * 8 + ((off, vagSize table i).1 + (off, vagSize table i).2) from by omega, Nat.mod_eq_of_lt hlt] at hcalc1
      unfold vagEntry
      rw [h, Option.some_bind, hcalc1]
      show some (table 0 * 8 + (off + vagSize table i), vagSize table (i + 1)) = _
      have : table 0 * 8 + (off + vagSize table i) = table 0 * 8 + off + vagSize table i := by omega
      rw [this]
      rfl

/-- C2 (counterexample): on a table whose first entry is rejected the
code's reconstruction aborts at the out-of-bounds `vagLocations[0]` access
(`none`), whereas the claimed literal chaining from the previous computed
entry (`vagReconstructSpec`, worded from the spec) proceeds and yields a
result; the code does not chain from the literal previous entry when that
entry was rejected. -/
theorem vag_chain_counterexample :
    vagReconstruct (fun j => if j = 1 then 1 else 0) 2 0 = none ∧
    vagReconstructSpec (fun j => if j = 1 then 1 else 0) 2 0 = ([], 0) := by
  exact ⟨by decide, by decide⟩

/-- C2 witness: the amended chain equation applied to the all-zero table
with end offset 0, where entry 0 is accepted. -/
theorem vag_chain_amended_witness :
    vagEntry (fun _ => 0) 0 0 1 = some (0, 0) := by
  obtain ⟨-, -, p, hp, hchain⟩ :=
    vag_chain_amended (fun _ => 0) 0 0 ⟨[(0, 0)], 0⟩ (by intro j; show (0:Nat) < 65536; decide) (by decide)
      (by decide) (by decide)
  have hp0 : p = ((0 : Nat), (0 : Nat)) := by
    have hev : vagEntry (fun _ => 0) 0 0 0 = some (0, 0) := by decide
    rw [hev] at hp
    cases hp
    rfl
  rw [hp0] at hchain
  simpa using hchain

lemma vabInstrLoadGo_first_failure (gb : Nat → Nat) (off mv : Nat) :
    ∀ k rem i acc, k < rem →
      (∀ j, j < k → (vabRgnLoad gb ((off + (i + j) * 32) % 4294967296) mv).isSome) →
      vabRgnLoad gb ((off + (i + k) * 32) % 4294967296) mv = none →
      (vabInstrLoadGo gb off mv rem i acc).1 = false := by
  intro k
  induction k with
  | zero =>
    intro rem i acc hk hsome hfail
    cases rem with
    | zero => omega
    | succ r =>
      have hfail' : vabRgnLoad gb ((off + i * 32) % 4294967296) mv = none := by
        simpa using hfail
      rw [vabInstrLoadGo, hfail']
  | succ k ih =>
    intro rem i acc hk hsome hfail
    cases rem with
    | zero => omega
    | succ r =>
      rw [vabInstrLoadGo]
      have h0 : (vabRgnLoad gb ((off + i * 32) % 4294967296) mv).isSome := by
        have := hsome 0 (by omega)
        simpa using this
      cases hval : vabRgnLoad gb ((off + i * 32) % 4294967296) mv with
      | none => rw [hval] at h0
      | some r0 =>
        show (vabInstrLoadGo gb off mv r (i + 1) (acc ++ [r0])).1 = false
        apply ih r (i + 1) (acc ++ [r0]) (by omega)
        · intro j hj
          have := hsome (j + 1) (by omega)
          have harith : i + (j + 1) = i + 1 + j := by omega
          rw [harith] at this
          exact this
        · have harith : i + (k + 1) = i + 1 + k := by omega
          rw [harith] at hfail
          exact hfail

/-- C8: region decoding fails exactly when the decoded keyLow byte exceeds
the decoded keyHigh byte (sole region-level hard failure), and when region
`k` of a program fails while all earlier regions succeed, `LoadInstr` stops
there and reports failure, so the (spec-modelled) caller retains no
partially decoded region list for that program. -/
theorem vab_rgn_key_range_failure :
    (∀ (gb : Nat → Nat) (off mv : Nat),
      vabRgnLoad gb off mv = none ↔ getByte gb (off + 6) > getByte gb (off + 7)) ∧
    (∀ (gb : Nat → Nat) (off mv tones k : Nat),
      k < (if tones < 128 then tones else 0) →
      (∀ j, j < k → (vabRgnLoad gb ((off + j * 32) % 4294967296) mv).isSome) →
      vabRgnLoad gb ((off + k * 32) % 4294967296) mv = none →
      (vabInstrLoad gb off mv tones).1 = false ∧
        vabInstrLoadResult gb off mv tones = none) := by
  constructor
  · intro gb off mv
    by_cases hk : getByte gb (off + 6) > getByte gb (off + 7) <;>
      simp [vabRgnLoad, hk]
  · intro gb off mv tones k hk hsome hfail
    have hfalse : (vabInstrLoad gb off mv tones).1 = false := by
      unfold vabInstrLoad
      apply vabInstrLoadGo_first_failure gb off mv k _ 0 [] hk
      · intro j hj
        have := hsome j hj
        simpa using this
      · simpa using hfail
    refine ⟨hfalse, ?_⟩
    unfold vabInstrLoadResult
    cases hpair : vabInstrLoad gb off mv tones with
    | mk fl rs =>
      rw [hpair] at hfalse
      simp at hfalse
      rw [hfalse]

/-- C8 witness: a program with one tone whose region has keyLow 5 and
keyHigh 0 makes `LoadInstr` fail and the program entry is discarded. -/
theorem vab_rgn_key_range_failure_witness :
    (vabInstrLoad (fun a => if a = 6 then 5 else 0) 0 0 1).1 = false ∧
    vabInstrLoadResult (fun a => if a = 6 then 5 else 0) 0 0 1 = none :=
  vab_rgn_key_range_failure.2 (fun a => if a = 6 then 5 else 0) 0 0 1 0
    (by decide) (fun j hj => absurd hj (Nat.not_lt_zero j)) (by decide)

lemma vabCountAccepted_succ (gb : Nat → Nat) (dw i : Nat) :
    vabCountAccepted gb dw (i + 1) =
      vabCountAccepted gb dw i + (if vabAccept gb dw i then 1 else 0) := by
  unfold vabCountAccepted
  rw [List.range_succ, List.filter_append, List.length_append]
  by_cases h : vabAccept gb dw i <;> simp [h]

lemma vabExamined_false_of_break (gb : Nat → Nat) (dw e i j : Nat)
    (hb : vabBreakAt gb dw e i = true) (hij : i ≤ j) :
    vabExamined gb dw e j = false := by
  unfold vabExamined
  apply List.all_eq_false.mpr
  exact ⟨i, List.mem_range.mpr (by omega), by simp [hb]⟩

lemma vabExamined_true_of_no_break (gb : Nat → Nat) (dw e i : Nat)
    (h : ∀ j, j ≤ i → vabBreakAt gb dw e j = false) :
    vabExamined gb dw e i = true := by
  unfold vabExamined
  apply List.all_eq_true.mpr
  intro j hj
  rw [List.mem_range] at hj
  simp [h j (by omega)]

lemma vabScanGo_spec (gb : Nat → Nat) (dw e : Nat) :
    ∀ rem i acc,
      (∀ j, j < i → vabBreakAt gb dw e j = false) →
      acc.length = vabCountAccepted gb dw i →
      vabScanGo gb dw e rem i acc =
        acc ++ ((List.range' i rem).filter
          (fun j => vabExamined gb dw e j && vabAccept gb dw j)).map (vabProgAt gb dw) := by
  intro rem
  induction rem with
  | zero =>
    intro i acc _ _
    simp [vabScanGo]
  | succ rem ih =>
    intro i acc hbr hlen
    rw [vabScanGo, hlen]
    have hcons : List.range' i (rem + 1) = i :: List.range' (i + 1) rem := rfl
    by_cases hb : ((dw + 32 + 2048 + vabCountAccepted gb dw i * 512) % 4294967296 + 512) % 4294967296 > e
    · rw [if_pos hb]
      have hbreak : vabBreakAt gb dw e i = true := by
        unfold vabBreakAt vabToneAttrOff
        exact decide_eq_true hb
      have hnil : (List.range' i (rem + 1)).filter
          (fun j => vabExamined gb dw e j && vabAccept gb dw j) = [] := by
        rw [List.filter_eq_nil_iff]
        intro a ha
        rw [List.mem_range'_1] at ha
        have hex := vabExamined_false_of_break gb dw e i a hbreak (by omega)
        simp [hex]
      rw [hnil]
      simp
    · rw [if_neg hb]
      have hbf : vabBreakAt gb dw e i = false := by
        unfold vabBreakAt vabToneAttrOff
        exact decide_eq_false hb
      have hbr' : ∀ j, j < i + 1 → vabBreakAt gb dw e j = false := by
        intro j hj
        rcases Nat.lt_or_ge j i with hji | hji
        · exact hbr j hji
        · have : j = i := by omega
          rw [this]
          exact hbf
      by_cases ht : getByte gb (dw + 32 + i * 16) > 32
      · rw [if_pos ht]
        have hacc : vabAccept gb dw i = false := by
          unfold vabAccept vabSlotTones
          simp
          omega
        rw [ih (i + 1) acc hbr' (by rw [hlen, vabCountAccepted_succ, hacc]; simp)]
        rw [hcons, List.filter_cons]
        simp [hacc]
      · rw [if_neg ht]
        by_cases h0 : getByte gb (dw + 32 + i * 16) ≠ 0
        · rw [if_pos h0]
          have hacc : vabAccept gb dw i = true := by
            unfold vabAccept vabSlotTones
            simp
            exact ⟨by omega, h0⟩
          have hex : vabExamined gb dw e i = true :=
            vabExamined_true_of_no_break gb dw e i (fun j hj => hbr' j (by omega))
          have hlen' : (acc ++ [(⟨i, (dw + 32 + 2048 + vabCountAccepted gb dw i * 512) % 4294967296,
              getByte gb (dw + 32 + i * 16), getByte gb (dw + 32 + i * 16 + 1)⟩ : VabProg)]).length
              = vabCountAccepted gb dw (i + 1) := by
            rw [List.length_append, hlen, vabCountAccepted_succ, hacc]
            simp
          rw [ih (i + 1) _ hbr' hlen']
          rw [hcons, List.filter_cons]
          have hcond : (vabExamined gb dw e i && vabAccept gb dw i) = true := by
            rw [hex, hacc]
            rfl
          rw [hcond]
          have hprog : (⟨i, (dw + 32 + 2048 + vabCountAccepted gb dw i * 512) % 4294967296,
              getByte gb (dw + 32 + i * 16), getByte gb (dw + 32 + i * 16 + 1)⟩ : VabProg)
              = vabProgAt gb dw i := rfl
          rw [hprog]
          simp
        · rw [if_neg h0]
          have hacc : vabAccept gb dw i = false := by
            unfold vabAccept vabSlotTones
            simp at h0
            simp [h0]
          rw [ih (i + 1) acc hbr' (by rw [hlen, vabCountAccepted_succ, hacc]; simp)]
          rw [hcons, List.filter_cons]
          simp [hacc]

/-- C6: closed form of the 128-slot instrument scan.  The loop ranges over
all 128 program slots (the header-declared program count is not an input of
the scan); a slot is part of the result exactly when it is examined (no
slot up to it triggered the early break, which fires as soon as the
tone-attribute offset plus 32*16 exceeds the end offset) and accepted
(tone count nonzero and at most 32); and each entry's tone-attribute
offset is the table base plus 32*16 times the number of accepted programs
before it - the packing offset advances only with accepted programs, never
with the raw slot index. -/
theorem vab_scan_layout (gb : Nat → Nat) (dwOffset nEndOffset : Nat) :
    vabScan gb dwOffset nEndOffset =
      ((List.range 128).filter
        (fun j => vabExamined gb dwOffset nEndOffset j && vabAccept gb dwOffset j)).map
        (vabProgAt gb dwOffset) := by
  unfold vabScan
  rw [vabScanGo_spec gb dwOffset nEndOffset 128 0 []
    (fun j hj => absurd hj (Nat.not_lt_zero j)) rfl]
  rw [List.range_eq_range' 128]
  simp

lemma byteLt_irrefl : ∀ a, byteLt a a = false := by
  intro a
  induction a with
  | nil => rfl
  | cons x xs ih => simp [byteLt, ih]

lemma byteLt_asymm : ∀ a b, byteLt a b = true → byteLt b a = false := by
  intro a
  induction a with
  | nil =>
    intro b hab
    cases b with
    | nil => simp [byteLt] at hab
    | cons y ys => simp [byteLt]
  | cons x xs ih =>
    intro b hab
    cases b with
    | nil => simp [byteLt] at hab
    | cons y ys =>
      simp only [byteLt] at hab ⊢
      by_cases h1 : x < y
      · have h2 : ¬ y < x := by omega
        simp [h1, h2]
      · by_cases h2 : y < x
        · simp [h1, h2] at hab
        · have hxy : x = y := by omega
          subst hxy
          simp only [Nat.lt_irrefl, if_false] at hab ⊢
          exact ih ys hab
  
lemma byteLt_trans : ∀ a b c, byteLt a b = true → byteLt b c = true → byteLt a c = true := by
  intro a
  induction a with
  | nil =>
    intro b c hab hbc
    cases b with
    | nil => simp [byteLt] at hab
    | cons y ys =>
      cases c with
      | nil => simp [byteLt] at hbc
      | cons z zs => simp [byteLt]
  | cons x xs ih =>
    intro b c hab hbc
    cases b with
    | nil => simp [byteLt] at hab
    | cons y ys =>
      cases c with
      | nil => simp [byteLt] at hbc
      | cons z zs =>
        simp only [byteLt] at hab hbc ⊢
        by_cases h1 : x < y
        · by_cases h2 : y < z
          · simp [show x < z from by omega]
          · by_cases h3 : z < y
            · simp [h2, h3] at hbc
            · have : y = z := by omega
              subst this
              simp [h1]
        · by_cases h1' : y < x
          · simp [h1, h1'] at hab
          · have : x = y := by omega
            subst this
            simp only [Nat.lt_irrefl, if_false] at hab
            by_cases h2 : x < z
            · simp [h2]
            · by_cases h3 : z < x
              · simp [h2, h3] at hbc
              · have : x = z := by omega
                subst this
                simp only [Nat.lt_irrefl, if_false] at hbc ⊢
                exact ih ys zs hab hbc

lemma byteLt_total_of_ne : ∀ a b, byteLt a b = false → a ≠ b → byteLt b a = true := by
  intro a
  induction a with
  | nil =>
    intro b hab hne
    cases b with
    | nil => exact absurd rfl hne
    | cons y ys => simp [byteLt] at hab
  | cons x xs ih =>
    intro b hab hne
    cases b with
    | nil => simp [byteLt]
    | cons y ys =>
      simp only [byteLt] at hab ⊢
      by_cases h1 : x < y
      · simp [h1] at hab
      · by_cases h2 : y < x
        · simp [h2]
        · have : x = y := by omega
          subst this
          simp only [Nat.lt_irrefl, if_false] at hab ⊢
          apply ih ys hab
          intro hcon
          exact hne (by rw [hcon])

lemma tagsUpdate_keys (m : List (List Nat × List Nat)) (k v : List Nat) :
    ∀ x ∈ tagsUpdate m k v, x.1 = k ∨ ∃ y ∈ m, y.1 = x.1 := by
  induction m with
  | nil =>
    intro x hx
    simp [tagsUpdate] at hx
    simp [hx]
  | cons e rest ih =>
    obtain ⟨k', v'⟩ := e
    intro x hx
    rw [tagsUpdate] at hx
    by_cases h1 : byteLt k k'
    · rw [if_pos h1, List.mem_cons, List.mem_cons] at hx
      rcases hx with hx | hx | hx
      · left; rw [hx]
      · right; exact ⟨(k', v'), List.mem_cons_self _ _, by rw [hx]⟩
      · right; exact ⟨x, List.mem_cons_of_mem _ hx, rfl⟩
    · rw [if_neg (by simp [h1])] at hx
      by_cases h2 : k = k'
      · rw [if_pos h2, List.mem_cons] at hx
        rcases hx with hx | hx
        · right; exact ⟨(k', v'), List.mem_cons_self _ _, by rw [hx]⟩
        · right; exact ⟨x, List.mem_cons_of_mem _ hx, rfl⟩
      · rw [if_neg h2, List.mem_cons] at hx
        rcases hx with hx | hx
        · right; exact ⟨(k', v'), List.mem_cons_self _ _, by rw [hx]⟩
        · rcases ih x hx with h | ⟨y, hy, hyx⟩
          · left; exact h
          · right; exact ⟨y, List.mem_cons_of_mem _ hy, hyx⟩

lemma tagsUpdate_sorted (k v : List Nat) :
    ∀ m, TagMapSorted m → TagMapSorted (tagsUpdate m k v) := by
  intro m
  induction m with
  | nil =>
    intro _
    simp [tagsUpdate, TagMapSorted]
  | cons e rest ih =>
    obtain ⟨k', v'⟩ := e
    intro hs
    rw [TagMapSorted, List.pairwise_cons] at hs
    obtain ⟨hhead, htail⟩ := hs
    rw [tagsUpdate]
    by_cases h1 : byteLt k k'
    · rw [if_pos h1]
      rw [TagMapSorted, List.pairwise_cons]
      constructor
      · intro y hy
        rw [List.mem_cons] at hy
        rcases hy with hy | hy
        · rw [hy]
          exact h1
        · exact byteLt_trans k k' y.1 h1 (hhead y hy)
      · rw [List.pairwise_cons]
        exact ⟨hhead, htail⟩
    · rw [if_neg (by simp [h1])]
      by_cases h2 : k = k'
      · rw [if_pos h2]
        rw [TagMapSorted, List.pairwise_cons]
        exact ⟨fun y hy => hhead y hy, htail⟩
      · rw [if_neg h2]
        rw [TagMapSorted, List.pairwise_cons]
        refine ⟨?_, ih htail⟩
        intro y hy
        rcases tagsUpdate_keys rest k v y hy with hyk | ⟨z, hz, hzy⟩
        · rw [hyk]
          exact byteLt_total_of_ne k k' (by simpa using h1) h2
        · rw [← hzy]
          exact hhead z hz

lemma tagsGet_none_of_forall (k : List Nat) :
    ∀ m, (∀ y ∈ m, y.1 ≠ k) → tagsGet m k = none := by
  intro m
  induction m with
  | nil => intro _; rfl
  | cons e rest ih =>
    obtain ⟨k', v'⟩ := e
    intro h
    rw [tagsGet]
    rw [if_neg (by exact h (k', v') (List.mem_cons_self _ _))]
    exact ih fun y hy => h y (List.mem_cons_of_mem _ hy)

lemma tagsGet_update_self (k v : List Nat) :
    ∀ m, TagMapSorted m →
      tagsGet (tagsUpdate m k v) k =
        some (match tagsGet m k with | none => v | some w => w ++ [10] ++ v) := by
  intro m
  induction m with
  | nil => simp [tagsUpdate, tagsGet]
  | cons e rest ih =>
    obtain ⟨k', v'⟩ := e
    intro hs
    rw [TagMapSorted, List.pairwise_cons] at hs
    obtain ⟨hhead, htail⟩ := hs
    rw [tagsUpdate]
    by_cases h1 : byteLt k k'
    · rw [if_pos h1]
      have hne : k' ≠ k := by
        intro hcon
        rw [hcon] at h1
        rw [byteLt_irrefl k] at h1
        exact Bool.false_ne_true h1
      have hnone : tagsGet ((k', v') :: rest) k = none := by
        apply tagsGet_none_of_forall
        intro y hy
        rw [List.mem_cons] at hy
        rcases hy with hy | hy
        · rw [hy]
          exact hne
        · intro hcon
          have h3 := hhead y hy
          rw [hcon] at h3
          rw [byteLt_asymm k k' h1] at h3
          exact Bool.false_ne_true h3
      rw [hnone]
      rw [tagsGet, if_pos rfl]
    · rw [if_neg (by simp [h1])]
      by_cases h2 : k = k'
      · rw [if_pos h2]
        rw [tagsGet, tagsGet]
        rw [if_pos h2.symm, if_pos h2.symm]
      · rw [if_neg h2]
        rw [tagsGet, tagsGet]
        rw [if_neg (fun hcon => h2 hcon.symm), if_neg (fun hcon => h2 hcon.symm)]
        exact ih htail

lemma tagsGet_update_other (k v q : List Nat) (hq : q ≠ k) :
    ∀ m, tagsGet (tagsUpdate m k v) q = tagsGet m q := by
  intro m
  induction m with
  | nil =>
    rw [tagsUpdate, tagsGet, tagsGet, if_neg (fun hcon => hq hcon.symm)]
    rfl
  | cons e rest ih =>
    obtain ⟨k', v'⟩ := e
    rw [tagsUpdate]
    by_cases h1 : byteLt k k'
    · rw [if_pos h1]
      rw [tagsGet, if_neg (fun hcon => hq hcon.symm)]
    · rw [if_neg (by simp [h1])]
      by_cases h2 : k = k'
      · rw [if_pos h2]
        rw [tagsGet, tagsGet]
        have : k' ≠ q := by
          intro hcon
          exact hq (by rw [← hcon, h2])
        rw [if_neg this, if_neg this]
      · rw [if_neg h2]
        rw [tagsGet, tagsGet]
        by_cases h3 : k' = q
        · rw [if_pos h3, if_pos h3]
        · rw [if_neg h3, if_neg h3]
          exact ih

lemma mergeTagVals_nil : ∀ acc, mergeTagVals acc [] = acc := by
  intro acc
  cases acc <;> rfl

lemma tagsGet_foldl_update (k : List Nat) :
    ∀ (es : List (List Nat × List Nat)) (m : List (List Nat × List Nat)),
      TagMapSorted m →
      tagsGet (es.foldl (fun acc e => tagsUpdate acc e.1 e.2) m) k =
        mergeTagVals (tagsGet m k) (tagValuesFor k es) := by
  intro es
  induction es with
  | nil =>
    intro m _
    rw [List.foldl_nil]
    rw [show tagValuesFor k [] = [] from rfl]
    rw [mergeTagVals_nil]
  | cons e es ih =>
    intro m hs
    rw [List.foldl_cons]
    have hs' := tagsUpdate_sorted e.1 e.2 m hs
    rw [ih _ hs']
    by_cases he : e.1 = k
    · have hvals : tagValuesFor k (e :: es) = e.2 :: tagValuesFor k es := by
        unfold tagValuesFor
        rw [List.filterMap_cons, if_pos he]
      rw [hvals, he]
      rw [tagsGet_update_self k e.2 m hs]
      cases hg : tagsGet m k with
      | none => rfl
      | some w => rfl
    · have hother := tagsGet_update_other e.1 e.2 k (fun hcon => he hcon.symm) m
      rw [hother]
      have hvals : tagValuesFor k (e :: es) = tagValuesFor k es := by
        unfold tagValuesFor
        rw [List.filterMap_cons, if_neg he]
      rw [hvals]

lemma psfTagLoop_eq_entries (t : List Nat) :
    ∀ fuel pos m,
      psfTagLoop t fuel pos m =
        (psfTagEntriesLoop t fuel pos).foldl (fun acc e => tagsUpdate acc e.1 e.2) m := by
  intro fuel
  induction fuel with
  | zero =>
    intro pos m
    rfl
  | succ fuel ih =>
    intro pos m
    rw [psfTagLoop, psfTagEntriesLoop]
    by_cases hpos : pos < t.length
    · rw [if_pos hpos, if_pos hpos]
      cases hsep : scanTo 61 ((t.drop pos).take
          ((((scanTo 10 (t.drop pos)).map (· + pos)).getD t.length) - pos)) with
      | none =>
        simp only [hsep]
        exact ih _ _
      | some rel =>
        simp only [hsep, List.foldl_cons]
        exact ih _ _
    · rw [if_neg hpos, if_neg hpos]
      rfl

/-- C9: in the tag parser the final value of any key `k` is the merge, in
encounter order and with a single 0x0A separator, of the values of all
lines whose trimmed name is exactly `k`, wherever those lines occur in the
tag section (merge is keyed by exact string equality, not adjacency); in
particular the concrete section "[TAG]comment=foo\nx=y\ncomment=bar\n",
whose two comment lines are not adjacent, yields
tags["comment"] = "foo" ++ "\n" ++ "bar". -/
theorem psfParseTags_merge :
    (∀ (t k : List Nat),
      tagsGet (psfParseTags t) k = mergeTagVals none (tagValuesFor k (psfTagEntries t))) ∧
    tagsGet (psfParseTags
        ([91,84,65,71,93] ++ [99,111,109,109,101,110,116,61,102,111,111,10]
          ++ [120,61,121,10] ++ [99,111,109,109,101,110,116,61,98,97,114,10]))
      [99,111,109,109,101,110,116] = some ([102,111,111] ++ [10] ++ [98,97,114]) := by
  constructor
  · intro t k
    unfold psfParseTags psfTagEntries
    rw [psfTagLoop_eq_entries]
    exact tagsGet_foldl_update k _ [] List.Pairwise.nil
  · decide
